import Mathlib

/-!
A shallow embedding of the gazelle `tsconfig` extension
(`gazelle/tsconfig/tsconfig.go`): the per-package configuration tree.

Since `Config` values in Go are heap objects reached through pointers (the
parent back-reference, and the `excludedPatterns` singly-linked list that is
shared by reference between parent and child), the embedding makes the heap
explicit: a `World` holds the allocated `Config` records and the allocated
exclusion lists, and pointers become indices into those arrays.  Every Go
method becomes a Lean function on `World` (state-passing for mutators,
plain reads for queries).
-/

namespace tsconfig

/-- Go `type EnvironmentType string`. -/
abbrev EnvironmentType := String

def EnvironmentNode : EnvironmentType := "node"

def EnvironmentBrowser : EnvironmentType := "browser"

def EnvironmentOther : EnvironmentType := "other"

/-- The placeholder token `$package_name$` used by the naming conventions. -/
def packageNameNamingConventionSubstitution : String := "$package_name$"

/-- Whether a character is whitespace for Go's `strings.TrimSpace`
(`unicode.IsSpace`); the Latin-1 range of Go's White_Space table is
modelled (tab, newline, vertical tab, form feed, carriage return, space,
next line, no-break space). -/
def isSpaceGo (c : Char) : Bool :=
  c = '\t' || c = '\n' || c = Char.ofNat 11 || c = Char.ofNat 12 ||
  c = '\r' || c = ' ' || c = Char.ofNat 0x85 || c = Char.ofNat 0xA0

/-- Model of `strings.TrimSpace` on the character list: drop leading and trailing
whitespace. -/
def trimSpaceList (s : List Char) : List Char :=
  ((s.dropWhile isSpaceGo).reverse.dropWhile isSpaceGo).reverse

/-- Model of `strings.TrimSpace`. -/
def goTrim (s : String) : String := String.mk (trimSpaceList s.data)

/-- The Go `Config` struct.  Pointer fields become indices: `parent` is an
optional index of the parent `Config` in the world's config store, and
`excludedPatterns` is the index of the shared pattern list in the world's
list store (the Go field holds a `*singlylinkedlist.List`).  The Go
`map[string]struct{}` of ignored dependencies is modelled as a
duplicate-free list of its keys. -/
structure Config where
  parent : Option Nat
  generationEnabled : Bool
  repoRoot : String
  environmentType : EnvironmentType
  excludedPatterns : Nat
  ignoreDependencies : List String
  validateImportStatements : Bool
  libraryNamingConvention : String
  testNamingConvention : String
deriving DecidableEq, Repr

/-- The explicit heap: all allocated `Config` records and all allocated
exclusion-pattern list objects.  A Go pointer `*Config` is an index into
`configs`; a Go pointer to a pattern list is an index into `lists`. -/
structure World where
  configs : List Config
  lists : List (List String)
deriving DecidableEq, Repr

def World.empty : World := ⟨[], []⟩

/-- Dereference a `*Config`. -/
def getConfig (w : World) (cid : Nat) : Option Config := w.configs[cid]?

/-- Go `New` allocates a fresh exclusion list and a fresh root `Config` with
the documented defaults; returns the new world and the new config's
address. -/
def New (w : World) (repoRoot : String) : World × Nat :=
  let cfg : Config :=
    { parent := none
      generationEnabled := true
      repoRoot := repoRoot
      environmentType := EnvironmentOther
      excludedPatterns := w.lists.length
      ignoreDependencies := []
      validateImportStatements := true
      libraryNamingConvention := packageNameNamingConventionSubstitution
      testNamingConvention := packageNameNamingConventionSubstitution ++ "_test" }
  ({ configs := w.configs ++ [cfg], lists := w.lists ++ [[]] }, w.configs.length)

/-- Go `(c *Config) Parent()`. -/
def Parent (w : World) (cid : Nat) : Option (Option Nat) :=
  (getConfig w cid).map (fun c => c.parent)

/-- Go `(c *Config) NewChild()`: allocates a child that copies the scalar
settings, shares the exclusion-list pointer, starts a fresh empty ignore
map, and points back at `c`.  Returns the new world and the child's
address. -/
def NewChild (w : World) (cid : Nat) : World × Nat :=
  match w.configs[cid]? with
  | none => (w, w.configs.length)
  | some c =>
    let child : Config :=
      { parent := some cid
        generationEnabled := c.generationEnabled
        repoRoot := c.repoRoot
        environmentType := c.environmentType
        excludedPatterns := c.excludedPatterns
        ignoreDependencies := []
        validateImportStatements := c.validateImportStatements
        libraryNamingConvention := c.libraryNamingConvention
        testNamingConvention := c.testNamingConvention }
    ({ configs := w.configs ++ [child], lists := w.lists }, w.configs.length)

/-- Go `(c *Config) AddExcludedPattern(pattern)`: appends to the pattern
list object that `c` points at. -/
def AddExcludedPattern (w : World) (cid : Nat) (pattern : String) : World :=
  match w.configs[cid]? with
  | none => w
  | some c =>
    match w.lists[c.excludedPatterns]? with
    | none => w
    | some l => { w with lists := w.lists.set c.excludedPatterns (l ++ [pattern]) }

/-- Go `(c *Config) ExcludedPatterns()`: the contents of the pattern list
object that `c` points at. -/
def ExcludedPatterns (w : World) (cid : Nat) : Option (List String) :=
  (getConfig w cid).bind (fun c => w.lists[c.excludedPatterns]?)

/-- Go `(c *Config) SetGenerationEnabled(enabled)`. -/
def SetGenerationEnabled (w : World) (cid : Nat) (enabled : Bool) : World :=
  match w.configs[cid]? with
  | none => w
  | some c => { w with configs := w.configs.set cid { c with generationEnabled := enabled } }

/-- Go `(c *Config) GenerationEnabled()`. -/
def GenerationEnabled (w : World) (cid : Nat) : Option Bool :=
  (getConfig w cid).map (fun c => c.generationEnabled)

/-- Go `(c *Config) FindThirdPartyDependency(modName)`: the unimplemented
stub; always `("", false)` and reads nothing from the world. -/
def FindThirdPartyDependency (_w : World) (_cid : Nat) (_modName : String) :
    String × Bool :=
  ("", false)

/-- Go `(c *Config) AddIgnoreDependency(dep)`: inserts the trimmed name into
`c`'s own ignore map (Go map insert: a no-op when the key is present). -/
def AddIgnoreDependency (w : World) (cid : Nat) (dep : String) : World :=
  match w.configs[cid]? with
  | none => w
  | some c =>
    let k := goTrim dep
    let m := if k ∈ c.ignoreDependencies then c.ignoreDependencies
             else c.ignoreDependencies ++ [k]
    { w with configs := w.configs.set cid { c with ignoreDependencies := m } }

/-- The parent-walk of `IgnoresDependency`, with fuel bounding the number
of pointer dereferences (the Go loop terminates because the parent chain
is acyclic; in every reachable world a parent's address is strictly below
its child's, so `w.configs.length` steps always suffice). -/
def ignoresDependencyChain (w : World) (dep : String) : Nat → Option Nat → Bool
  | _, none => false
  | 0, some _ => false
  | fuel + 1, some cid =>
    match w.configs[cid]? with
    | none => false
    | some c =>
      if dep ∈ c.ignoreDependencies then true
      else ignoresDependencyChain w dep fuel c.parent

/-- Go `(c *Config) IgnoresDependency(dep)`: trims, checks the own map, then
walks the parent chain up to the root. -/
def IgnoresDependency (w : World) (cid : Nat) (dep : String) : Bool :=
  ignoresDependencyChain w (goTrim dep) w.configs.length (some cid)

/-- Go `(c *Config) SetValidateImportStatements(validate)`. -/
def SetValidateImportStatements (w : World) (cid : Nat) (validate : Bool) : World :=
  match w.configs[cid]? with
  | none => w
  | some c =>
    { w with configs := w.configs.set cid { c with validateImportStatements := validate } }

/-- Go `(c *Config) ValidateImportStatements()`. -/
def ValidateImportStatements (w : World) (cid : Nat) : Option Bool :=
  (getConfig w cid).map (fun c => c.validateImportStatements)

/-- Go `(c *Config) SetEnvironmentType(envType)`. -/
def SetEnvironmentType (w : World) (cid : Nat) (envType : EnvironmentType) : World :=
  match w.configs[cid]? with
  | none => w
  | some c => { w with configs := w.configs.set cid { c with environmentType := envType } }

/-- Go `(c *Config) SetLibraryNamingConvention(...)`. -/
def SetLibraryNamingConvention (w : World) (cid : Nat) (conv : String) : World :=
  match w.configs[cid]? with
  | none => w
  | some c => { w with configs := w.configs.set cid { c with libraryNamingConvention := conv } }

/-- Go `(c *Config) SetTestNamingConvention(...)`. -/
def SetTestNamingConvention (w : World) (cid : Nat) (conv : String) : World :=
  match w.configs[cid]? with
  | none => w
  | some c => { w with configs := w.configs.set cid { c with testNamingConvention := conv } }

/-- One scan step of `strings.ReplaceAll` with a nonempty pattern: while
`skip > 0` the characters of an already-matched occurrence are being
consumed; otherwise match the pattern at the current position
(leftmost-first, non-overlapping, exactly Go's `strings.Replace` with
`n < 0`). -/
def raGo (pat rep : List Char) (skip : Nat) : List Char → List Char
  | [] => []
  | c :: rest =>
    match skip with
    | k + 1 => raGo pat rep k rest
    | 0 =>
      if pat.isPrefixOf (c :: rest) then rep ++ raGo pat rep (pat.length - 1) rest
      else c :: raGo pat rep 0 rest

/-- Model of `strings.ReplaceAll s pat rep`.  For an empty pattern Go inserts
`rep` before every rune and at the end; this branch is unreachable from
this file, whose only pattern is the constant placeholder token. -/
def replaceAll (s pat rep : List Char) : List Char :=
  if pat = [] then rep ++ (s.map (fun c => c :: rep)).flatten
  else raGo pat rep 0 s

/-- Go `(c *Config) RenderLibraryName(packageName)`. -/
def RenderLibraryName (w : World) (cid : Nat) (packageName : String) : Option String :=
  (getConfig w cid).map (fun c =>
    String.mk (replaceAll c.libraryNamingConvention.data
      packageNameNamingConventionSubstitution.data packageName.data))

/-- Go `(c *Config) RenderTestName(packageName)`. -/
def RenderTestName (w : World) (cid : Nat) (packageName : String) : Option String :=
  (getConfig w cid).map (fun c =>
    String.mk (replaceAll c.testNamingConvention.data
      packageNameNamingConventionSubstitution.data packageName.data))

/-! ## Well-formedness of reachable worlds

Worlds built by `New` / `NewChild` allocate children after their parents,
so every parent address is strictly below its child's address, and every
exclusion-list pointer is a valid address.  Both checks are decidable so
that concrete worlds can be certified by `decide`. -/

/-- The parent pointer at address `i`, if any, is strictly below `i`. -/
def parentOkAt (w : World) (i : Nat) : Bool :=
  match (getConfig w i).bind (fun c => c.parent) with
  | none => true
  | some p => decide (p < i)

/-- Every allocated config's parent address is strictly below its own
address. -/
def parentsDecreasing (w : World) : Bool :=
  (List.range w.configs.length).all (fun i => parentOkAt w i)

/-- Every config's exclusion-list pointer is a valid address in the list
store. -/
def listsValid (w : World) : Bool :=
  w.configs.all (fun c => decide (c.excludedPatterns < w.lists.length))

/-- The Prop reading of `parentsDecreasing`. -/
abbrev PD (w : World) : Prop :=
  ∀ (i : Nat) (c : Config) (p : Nat),
    w.configs[i]? = some c → c.parent = some p → p < i

/-- Dereference the parent pointer of the config at address `i`. -/
def getParent (w : World) (i : Nat) : Option Nat :=
  (getConfig w i).bind (fun c => c.parent)

/-- Relation stating that `a` lies on the parent chain of `n`, including `n` itself. -/
inductive AncOrSelf (w : World) : Nat → Nat → Prop
  | refl (i : Nat) : AncOrSelf w i i
  | step {i j k : Nat} : AncOrSelf w i j → getParent w j = some k → AncOrSelf w i k

/-- The node's own ignore map (empty for a dangling address). -/
def localIgnores (w : World) (i : Nat) : List String :=
  ((w.configs[i]?).map (fun c => c.ignoreDependencies)).getD []

/-- The child record allocated by `NewChild` from parent address `cid`
with parent record `c`. -/
def childOf (cid : Nat) (c : Config) : Config :=
  { parent := some cid
    generationEnabled := c.generationEnabled
    repoRoot := c.repoRoot
    environmentType := c.environmentType
    excludedPatterns := c.excludedPatterns
    ignoreDependencies := []
    validateImportStatements := c.validateImportStatements
    libraryNamingConvention := c.libraryNamingConvention
    testNamingConvention := c.testNamingConvention }

/-- Predicate stating that `pat` occurs as a contiguous substring of `s`. -/
def Occurs (pat s : List Char) : Prop := ∃ a b, s = a ++ pat ++ b

/-! ## `path/filepath` (Unix rules), as used by `ParentForPackage` -/

/-- The backtracking loop of `Clean`'s `..` handling: starting from
write-position `w`, walk back over the pre-truncation buffer `full` while
above `dotdot` and the character at the position is not a separator
(Go: `for out.w > dotdot && !os.IsPathSeparator(out.index(out.w))`). -/
def btLoop (full : List Char) (dotdot : Nat) : Nat → Nat
  | 0 => 0
  | w + 1 =>
    if w + 1 ≤ dotdot then w + 1
    else if full[w + 1]? = some '/' then w + 1
    else btLoop full dotdot w

/-- The element scan of `filepath.Clean` (Unix separator), one iteration
per consumed character; the fuel is always instantiated with the length
of the path, which bounds the number of iterations since every iteration
consumes at least one character.  `out` is the logical content of Go's
`lazybuf` and `dotdot` the barrier below which `..` may not erase. -/
def cleanLoop (rooted : Bool) : Nat → List Char → List Char → Nat → List Char
  | 0, _, out, _ => out
  | _ + 1, [], out, _ => out
  | fuel + 1, c :: rest, out, dotdot =>
    if c = '/' then
      cleanLoop rooted fuel rest out dotdot
    else if c = '.' ∧ (rest = [] ∨ rest.head? = some '/') then
      cleanLoop rooted fuel rest out dotdot
    else if c = '.' ∧ rest.head? = some '.'
        ∧ (rest.tail = [] ∨ rest.tail.head? = some '/') then
      if dotdot < out.length then
        cleanLoop rooted fuel rest.tail (out.take (btLoop out dotdot (out.length - 1))) dotdot
      else if !rooted then
        cleanLoop rooted fuel rest.tail
          ((if out.length ≠ 0 then out ++ ['/'] else out) ++ ['.', '.'])
          ((if out.length ≠ 0 then out ++ ['/'] else out) ++ ['.', '.']).length
      else
        cleanLoop rooted fuel rest.tail out dotdot
    else
      cleanLoop rooted fuel ((c :: rest).dropWhile (fun x => x ≠ '/'))
        ((if (rooted ∧ out.length ≠ 1) ∨ (¬rooted ∧ out.length ≠ 0)
            then out ++ ['/'] else out) ++ (c :: rest).takeWhile (fun x => x ≠ '/'))
        dotdot

/-- Model of `filepath.Clean` on Unix: shortest lexically equivalent path. -/
def Clean (path : String) : String :=
  if path = "" then "."
  else
    let cs := path.data
    let rooted := cs.head? = some '/'
    let res := cleanLoop rooted cs.length cs (if rooted then ['/'] else [])
      (if rooted then 1 else 0)
    if res = [] then "." else String.mk res

/-- Model of `filepath.Dir` on Unix: strip the trailing non-separator run, then
`Clean` what is left (`Dir "" = "."`). -/
def Dir (path : String) : String :=
  Clean (String.mk ((path.data.reverse.dropWhile (fun c => c ≠ '/')).reverse))

/-- Go `type Configs map[string]*Config`, as an association list from package
path to config address (insertion determined by the external walker). -/
abbrev Configs := List (String × Nat)

/-- Go `(c *Configs) ParentForPackage(pkg)`: look up the config registered
under `dirname(pkg)`, with `"."` normalized to the empty string; `none`
when no config is registered under that key. -/
def ParentForPackage (cs : Configs) (pkg : String) : Option Nat :=
  let dir := Dir pkg
  ((cs.find? (fun e => e.1 == (if dir = "." then "" else dir))).map (fun e => e.2))


/-! ## Concrete worlds used by the witnesses

A root config for the repository, a child for package `a`, and a
grandchild for package `a/b` (addresses 0, 1 and 2). -/

def exampleWorld : World := (New World.empty "repo").1

def exampleWorldA : World := (NewChild exampleWorld 0).1

def exampleWorldAB : World := (NewChild exampleWorldA 1).1

def exampleIgnoreWorld : World := AddIgnoreDependency exampleWorldAB 1 "left-pad"


lemma pd_of_dec {w : World} (h : parentsDecreasing w = true) : PD w := by
  intro i c p hi hp
  have hlen : i < w.configs.length := by
    by_contra hlt
    rw [List.getElem?_eq_none (Nat.le_of_not_lt hlt)] at hi
    exact Option.noConfusion hi
  have hall := List.all_eq_true.mp h i (List.mem_range.mpr hlen)
  unfold parentOkAt getConfig at hall
  rw [hi] at hall
  rw [show (some c).bind (fun c => c.parent) = some p from hp] at hall
  exact of_decide_eq_true hall


lemma chain_fuel_none (w : World) (d : String) (fuel : Nat) :
    ignoresDependencyChain w d fuel none = false := by
  cases fuel <;> rfl

lemma anc_le {w : World} (hpd : PD w) {i a : Nat} (h : AncOrSelf w i a) : a ≤ i := by
  induction h with
  | refl => exact Nat.le_refl _
  | step hanc hj ih =>
    rename_i j k
    unfold getParent getConfig at hj
    cases hc : w.configs[j]? with
    | none => rw [hc] at hj; exact Option.noConfusion hj
    | some c =>
      rw [hc] at hj
      exact Nat.le_trans (Nat.le_of_lt (hpd j c k hc hj)) ih

lemma anc_of_parent_none {w : World} {i a : Nat} (hp : getParent w i = none)
    (h : AncOrSelf w i a) : a = i := by
  induction h with
  | refl => rfl
  | step hanc hj ih =>
    subst ih
    rw [hp] at hj
    exact Option.noConfusion hj

lemma anc_factor {w : World} {i p a : Nat} (hp : getParent w i = some p)
    (h : AncOrSelf w i a) : a = i ∨ AncOrSelf w p a := by
  induction h with
  | refl => exact Or.inl rfl
  | step hanc hj ih =>
    rename_i j k
    cases ih with
    | inl hji =>
      subst hji
      rw [hp] at hj
      obtain rfl : p = k := Option.some.inj hj
      exact Or.inr (AncOrSelf.refl p)
    | inr hpj => exact Or.inr (AncOrSelf.step hpj hj)

lemma anc_extend {w : World} {i p a : Nat} (hp : getParent w i = some p)
    (h : AncOrSelf w p a) : AncOrSelf w i a := by
  induction h with
  | refl => exact AncOrSelf.step (AncOrSelf.refl i) hp
  | step hanc hj ih => exact AncOrSelf.step ih hj

/-- The walk with enough fuel decides exactly "the trimmed name is in the
own map or in some ancestor's map". -/
lemma chain_iff {w : World} (hpd : PD w) (d : String) :
    ∀ fuel cid, cid < fuel →
      (ignoresDependencyChain w d fuel (some cid) = true ↔
        ∃ a, AncOrSelf w cid a ∧ d ∈ localIgnores w a) := by
  intro fuel
  induction fuel with
  | zero => intro cid h; exact absurd h (Nat.not_lt_zero cid)
  | succ fuel ih =>
    intro cid hcid
    cases hc : w.configs[cid]? with
    | none =>
      simp only [ignoresDependencyChain, hc]
      constructor
      · intro h; exact Bool.noConfusion h
      · rintro ⟨a, hanc, hmem⟩
        have hpnone : getParent w cid = none := by
          unfold getParent getConfig
          rw [hc]; rfl
        have ha : a = cid := anc_of_parent_none hpnone hanc
        subst ha
        simp [localIgnores, hc] at hmem
    | some c =>
      simp only [ignoresDependencyChain, hc]
      by_cases hmem : d ∈ c.ignoreDependencies
      · simp only [if_pos hmem]
        constructor
        · intro _
          exact ⟨cid, AncOrSelf.refl cid, by simp [localIgnores, hc, hmem]⟩
        · intro _; trivial
      · simp only [if_neg hmem]
        cases hpar : c.parent with
        | none =>
          have hpnone : getParent w cid = none := by
            unfold getParent getConfig
            rw [hc]
            show c.parent = none
            exact hpar
          constructor
          · intro h
            rw [chain_fuel_none] at h
            exact Bool.noConfusion h
          · rintro ⟨a, hanc, hm⟩
            have ha : a = cid := anc_of_parent_none hpnone hanc
            subst ha
            simp only [localIgnores, hc, Option.map_some', Option.getD_some] at hm
            exact absurd hm hmem
        | some p =>
          have hpsome : getParent w cid = some p := by
            unfold getParent getConfig
            rw [hc]
            show c.parent = some p
            exact hpar
          have hplt : p < fuel := by
            have := hpd cid c p hc hpar
            omega
          rw [ih p hplt]
          constructor
          · rintro ⟨a, hanc, hm⟩
            exact ⟨a, anc_extend hpsome hanc, hm⟩
          · rintro ⟨a, hanc, hm⟩
            cases anc_factor hpsome hanc with
            | inl ha =>
              subst ha
              simp only [localIgnores, hc, Option.map_some', Option.getD_some] at hm
              exact absurd hm hmem
            | inr hpa => exact ⟨a, hpa, hm⟩

/-- Lemma: `IgnoresDependency` decides exactly "the trimmed name is in the own
map or in some ancestor's map" (no address validity needed: a dangling
receiver has no config, no parent and an empty map). -/
lemma ignores_iff {w : World} (hpd : PD w) (cid : Nat) (d : String) :
    IgnoresDependency w cid d = true ↔
      ∃ a, AncOrSelf w cid a ∧ goTrim d ∈ localIgnores w a := by
  by_cases hcid : cid < w.configs.length
  · exact chain_iff hpd (goTrim d) _ cid hcid
  · have hc : w.configs[cid]? = none := getElem?_neg _ _ hcid
    have hpnone : getParent w cid = none := by
      unfold getParent getConfig
      rw [hc]; rfl
    constructor
    · intro h
      unfold IgnoresDependency at h
      cases hfuel : w.configs.length with
      | zero => rw [hfuel] at h; exact Bool.noConfusion h
      | succ m =>
        rw [hfuel] at h
        simp only [ignoresDependencyChain, hc] at h
        exact Bool.noConfusion h
    · rintro ⟨a, hanc, hm⟩
      have ha : a = cid := anc_of_parent_none hpnone hanc
      subst ha
      simp [localIgnores, hc] at hm

lemma lt_of_getElem?_some {α : Type} {l : List α} {i : Nat} {a : α}
    (h : l[i]? = some a) : i < l.length := by
  by_contra hlt
  rw [List.getElem?_eq_none (Nat.le_of_not_lt hlt)] at h
  exact Option.noConfusion h

/-- Ancestor chains only mention addresses at or below their start, so
they are insensitive to changes at higher addresses. -/
lemma anc_of_frame {w w1 : World} {B0 : Nat} (hpd1 : PD w1)
    (hsame : ∀ i, i < B0 → w1.configs[i]? = w.configs[i]?) {A a : Nat} (hA : A < B0)
    (h : AncOrSelf w1 A a) : AncOrSelf w A a := by
  induction h with
  | refl => exact AncOrSelf.refl A
  | step hanc hj ih =>
    rename_i j k
    have hjA : j ≤ A := anc_le hpd1 hanc
    have hj' : getParent w j = some k := by
      unfold getParent getConfig at hj ⊢
      rw [hsame j (Nat.lt_of_le_of_lt hjA hA)] at hj
      exact hj
    exact AncOrSelf.step ih hj'

/-- Ancestor chains only depend on the parent pointers. -/
lemma anc_congr {w w1 : World} (hpar : ∀ i, getParent w1 i = getParent w i)
    {A a : Nat} (h : AncOrSelf w A a) : AncOrSelf w1 A a := by
  induction h with
  | refl => exact AncOrSelf.refl A
  | step hanc hj ih =>
    rename_i j k
    exact AncOrSelf.step ih ((hpar j).trans hj)

/-- Replacing one config with one that keeps the same parent pointer
preserves all parent pointers. -/
lemma getParent_set (w : World) (cid : Nat) (c c' : Config)
    (hc : w.configs[cid]? = some c) (hpp : c'.parent = c.parent)
    (ls : List (List String)) (i : Nat) :
    getParent { configs := w.configs.set cid c', lists := ls } i = getParent w i := by
  unfold getParent getConfig
  by_cases hi : i = cid
  · subst hi
    have hlt : i < w.configs.length := lt_of_getElem?_some hc
    show ((w.configs.set i c')[i]?).bind _ = _
    rw [List.getElem?_set_eq_of_lt c' hlt, hc]
    show c'.parent = c.parent
    exact hpp
  · show ((w.configs.set cid c')[i]?).bind _ = _
    rw [List.getElem?_set_ne (fun hh => hi hh.symm)]

/-- Replacing one config with one that keeps the same parent pointer
preserves `PD`. -/
lemma pd_set {w : World} (hpd : PD w) {cid : Nat} {c c' : Config}
    (hc : w.configs[cid]? = some c) (hpp : c'.parent = c.parent)
    (ls : List (List String)) :
    PD { configs := w.configs.set cid c', lists := ls } := by
  intro i cc p hi hp
  by_cases hicid : i = cid
  · subst hicid
    have hlt : i < w.configs.length := lt_of_getElem?_some hc
    rw [show ({ configs := w.configs.set i c', lists := ls } : World).configs
        = w.configs.set i c' from rfl, List.getElem?_set_eq_of_lt c' hlt] at hi
    obtain rfl : c' = cc := Option.some.inj hi
    rw [hpp] at hp
    exact hpd i c p hc hp
  · rw [show ({ configs := w.configs.set cid c', lists := ls } : World).configs
        = w.configs.set cid c' from rfl,
        List.getElem?_set_ne (fun hh => hicid hh.symm)] at hi
    exact hpd i cc p hi hp

lemma pd_New {w : World} (hpd : PD w) (r : String) : PD (New w r).1 := by
  intro i cc p hi hp
  unfold New at hi
  simp only at hi
  by_cases hlt : i < w.configs.length
  · rw [List.getElem?_append_left hlt] at hi
    exact hpd i cc p hi hp
  · by_cases hieq : i = w.configs.length
    · subst hieq
      rw [List.getElem?_concat_length] at hi
      obtain rfl := Option.some.inj hi
      exact Option.noConfusion hp
    · rw [List.getElem?_eq_none (by simp; omega)] at hi
      exact Option.noConfusion hi

lemma pd_NewChild {w : World} (hpd : PD w) (cid : Nat) : PD (NewChild w cid).1 := by
  cases hc : w.configs[cid]? with
  | none =>
    simp only [NewChild, hc]
    exact hpd
  | some c =>
    simp only [NewChild, hc]
    intro i cc p hi hp
    by_cases hlt : i < w.configs.length
    · rw [List.getElem?_append_left hlt] at hi
      exact hpd i cc p hi hp
    · by_cases hieq : i = w.configs.length
      · subst hieq
        rw [List.getElem?_concat_length] at hi
        obtain rfl := Option.some.inj hi
        obtain rfl : cid = p := Option.some.inj hp
        exact lt_of_getElem?_some hc
      · rw [List.getElem?_eq_none (by simp; omega)] at hi
        exact Option.noConfusion hi

lemma getParent_AddIgnore (w : World) (cid : Nat) (d : String) (i : Nat) :
    getParent (AddIgnoreDependency w cid d) i = getParent w i := by
  cases hc : w.configs[cid]? with
  | none => simp only [AddIgnoreDependency, hc]
  | some c =>
    simp only [AddIgnoreDependency, hc]
    exact getParent_set w cid c
      { c with ignoreDependencies :=
          if goTrim d ∈ c.ignoreDependencies then c.ignoreDependencies
          else c.ignoreDependencies ++ [goTrim d] } hc rfl w.lists i

lemma pd_AddIgnore {w : World} (hpd : PD w) (cid : Nat) (d : String) :
    PD (AddIgnoreDependency w cid d) := by
  cases hc : w.configs[cid]? with
  | none =>
    simp only [AddIgnoreDependency, hc]
    exact hpd
  | some c =>
    simp only [AddIgnoreDependency, hc]
    exact @pd_set w hpd cid c
      { c with ignoreDependencies :=
          if goTrim d ∈ c.ignoreDependencies then c.ignoreDependencies
          else c.ignoreDependencies ++ [goTrim d] } hc rfl w.lists

/-- Adding an ignored dependency never removes a name from any node's own
map. -/
lemma localIgnores_AddIgnore_mono {w : World} {cid i : Nat} {d s : String}
    (h : s ∈ localIgnores w i) :
    s ∈ localIgnores (AddIgnoreDependency w cid d) i := by
  cases hc : w.configs[cid]? with
  | none => simpa only [AddIgnoreDependency, hc] using h
  | some c =>
    simp only [AddIgnoreDependency, hc]
    by_cases hicid : i = cid
    · subst hicid
      have hlt : i < w.configs.length := lt_of_getElem?_some hc
      unfold localIgnores at h ⊢
      rw [show ({ configs := w.configs.set i _, lists := w.lists } : World).configs
          = w.configs.set i _ from rfl, List.getElem?_set_eq_of_lt _ hlt]
      rw [hc] at h
      simp only [Option.map_some', Option.getD_some] at h ⊢
      by_cases hk : goTrim d ∈ c.ignoreDependencies
      · simpa [hk] using h
      · simp only [if_neg hk]
        exact List.mem_append_left _ h
    · unfold localIgnores at h ⊢
      rw [show ({ configs := w.configs.set cid _, lists := w.lists } : World).configs
          = w.configs.set cid _ from rfl,
          List.getElem?_set_ne (fun hh => hicid hh.symm)]
      exact h

/-- Lemma: `IgnoresDependency` is insensitive to changes at addresses above the
receiver's. -/
lemma ignores_frame {w w1 : World} (hpd : PD w) (hpd1 : PD w1) {B0 : Nat}
    (hsame : ∀ i, i < B0 → w1.configs[i]? = w.configs[i]?) {A : Nat} (hA : A < B0)
    (d : String) :
    IgnoresDependency w1 A d = IgnoresDependency w A d := by
  apply Bool.coe_iff_coe.mp
  rw [ignores_iff hpd1 A d, ignores_iff hpd A d]
  constructor
  · rintro ⟨a, hanc, hm⟩
    have haA : a ≤ A := anc_le hpd1 hanc
    refine ⟨a, anc_of_frame hpd1 hsame hA hanc, ?_⟩
    unfold localIgnores at hm ⊢
    rw [← hsame a (Nat.lt_of_le_of_lt haA hA)]
    exact hm
  · rintro ⟨a, hanc, hm⟩
    have haA : a ≤ A := anc_le hpd hanc
    refine ⟨a, anc_of_frame hpd (fun i hi => (hsame i hi).symm) hA hanc, ?_⟩
    unfold localIgnores at hm ⊢
    rw [hsame a (Nat.lt_of_le_of_lt haA hA)]
    exact hm

/-! ## Trimming is idempotent -/

lemma dropWhile_head_not {α : Type} {p : α → Bool} :
    ∀ (l : List α) (a : α), (l.dropWhile p).head? = some a → p a = false := by
  intro l
  induction l with
  | nil => intro a h; exact Option.noConfusion h
  | cons c rest ih =>
    intro a h
    by_cases hc : p c
    · rw [List.dropWhile_cons_of_pos hc] at h
      exact ih a h
    · rw [List.dropWhile_cons_of_neg hc] at h
      obtain rfl : c = a := Option.some.inj h
      exact Bool.eq_false_iff.mpr hc

lemma getLast?_dropWhile {α : Type} (p : α → Bool) (l : List α)
    (h : l.dropWhile p ≠ []) : (l.dropWhile p).getLast? = l.getLast? := by
  obtain ⟨t, ht⟩ := List.dropWhile_suffix (l := l) p
  conv_rhs => rw [← ht]
  exact (List.getLast?_append_of_ne_nil t h).symm

lemma trim_head (s : List Char) (a : Char)
    (h : (trimSpaceList s).head? = some a) : isSpaceGo a = false := by
  unfold trimSpaceList at h
  rw [List.head?_reverse] at h
  have hne : (s.dropWhile isSpaceGo).reverse.dropWhile isSpaceGo ≠ [] := by
    intro hnil
    rw [hnil] at h
    exact Option.noConfusion h
  rw [getLast?_dropWhile _ _ hne, List.getLast?_reverse] at h
  exact dropWhile_head_not _ a h

lemma trimSpaceList_idem (s : List Char) :
    trimSpaceList (trimSpaceList s) = trimSpaceList s := by
  have h1 : (trimSpaceList s).dropWhile isSpaceGo = trimSpaceList s := by
    cases ht : trimSpaceList s with
    | nil => rfl
    | cons a t' =>
      have ha : isSpaceGo a = false := trim_head s a (by rw [ht]; rfl)
      rw [List.dropWhile_cons_of_neg (by simp [ha])]
  have h2 : (trimSpaceList s).reverse.dropWhile isSpaceGo = (trimSpaceList s).reverse := by
    show ((((s.dropWhile isSpaceGo).reverse.dropWhile isSpaceGo).reverse).reverse).dropWhile
          isSpaceGo
        = (((s.dropWhile isSpaceGo).reverse.dropWhile isSpaceGo).reverse).reverse
    rw [List.reverse_reverse, List.dropWhile_idempotent]
  show (((trimSpaceList s).dropWhile isSpaceGo).reverse.dropWhile isSpaceGo).reverse
      = trimSpaceList s
  rw [h1, h2, List.reverse_reverse]

lemma goTrim_idem (s : String) : goTrim (goTrim s) = goTrim s := by
  show String.mk (trimSpaceList (trimSpaceList s.data)) = String.mk (trimSpaceList s.data)
  rw [trimSpaceList_idem]

/-! ## Small helpers about the ignore map -/

lemma mem_insertIgnore {l : List String} {k : String} :
    k ∈ (if k ∈ l then l else l ++ [k]) := by
  by_cases h : k ∈ l
  · simp [h]
  · simp [h]

lemma chain_succ_mem {w : World} {cid : Nat} {c : Config} {d : String} (fuel : Nat)
    (hc : w.configs[cid]? = some c) (hmem : d ∈ c.ignoreDependencies) :
    ignoresDependencyChain w d (fuel + 1) (some cid) = true := by
  simp only [ignoresDependencyChain, hc, if_pos hmem]

lemma ignores_set_self_mem {w : World} {cid : Nat} {c1 : Config}
    (hcid : cid < w.configs.length) (q : String)
    (hmem : goTrim q ∈ c1.ignoreDependencies) :
    IgnoresDependency { w with configs := w.configs.set cid c1 } cid q = true := by
  unfold IgnoresDependency
  obtain ⟨k, hk⟩ : ∃ k, w.configs.length = k + 1 := ⟨w.configs.length - 1, by omega⟩
  have hlen : ({ w with configs := w.configs.set cid c1 } : World).configs.length = k + 1 := by
    simp [hk]
  rw [hlen]
  refine chain_succ_mem k ?_ hmem
  show (w.configs.set cid c1)[cid]? = some c1
  exact List.getElem?_set_eq_of_lt c1 hcid

/-- Lemma: after `AddIgnoreDependency d`, any query whose trim equals `d`'s trim
is reported ignored by the same node. -/
lemma ignores_after_add_same_trim {w : World} {cid : Nat} {c : Config}
    (hc : w.configs[cid]? = some c) (hcid : cid < w.configs.length) (d q : String)
    (hdq : goTrim q = goTrim d) :
    IgnoresDependency (AddIgnoreDependency w cid d) cid q = true := by
  simp only [AddIgnoreDependency, hc]
  refine ignores_set_self_mem hcid q ?_
  show goTrim q ∈ (if goTrim d ∈ c.ignoreDependencies then c.ignoreDependencies
      else c.ignoreDependencies ++ [goTrim d])
  rw [hdq]
  exact mem_insertIgnore

/-- Adding a name already present in the node's own map is a no-op. -/
lemma addIgnore_set_mem {w : World} {cid : Nat} {c1 : Config}
    (hcid : cid < w.configs.length) (s : String)
    (hmem : goTrim s ∈ c1.ignoreDependencies) :
    AddIgnoreDependency { w with configs := w.configs.set cid c1 } cid s
      = { w with configs := w.configs.set cid c1 } := by
  have hc1 : ({ w with configs := w.configs.set cid c1 } : World).configs[cid]? = some c1 := by
    show (w.configs.set cid c1)[cid]? = some c1
    exact List.getElem?_set_eq_of_lt c1 hcid
  simp only [AddIgnoreDependency, hc1, if_pos hmem]
  show ({ w with configs := (w.configs.set cid c1).set cid c1 } : World) = _
  rw [List.set_set]

lemma newChild_eq {w : World} {cid : Nat} {c : Config} (hc : w.configs[cid]? = some c) :
    NewChild w cid
      = ({ configs := w.configs ++ [childOf cid c], lists := w.lists }, w.configs.length) := by
  simp only [NewChild, hc, childOf]

lemma getConfig_append_last (cfgs : List Config) (ls : List (List String)) (c : Config) :
    getConfig { configs := cfgs ++ [c], lists := ls } cfgs.length = some c := by
  unfold getConfig
  exact List.getElem?_concat_length cfgs c

lemma getConfig_append_lt (cfgs : List Config) (ls : List (List String)) (c : Config)
    {i : Nat} (hi : i < cfgs.length) :
    getConfig { configs := cfgs ++ [c], lists := ls } i = cfgs[i]? := by
  unfold getConfig
  exact List.getElem?_append_left hi

lemma getConfig_world_set_ne {cfgs : List Config} {ls : List (List String)} {i j : Nat}
    (hij : i ≠ j) (c' : Config) :
    getConfig { configs := cfgs.set i c', lists := ls } j = cfgs[j]? := by
  unfold getConfig
  exact List.getElem?_set_ne hij

lemma excludedPatterns_spec {w : World} {cid : Nat} {c : Config}
    (hc : getConfig w cid = some c) :
    ExcludedPatterns w cid = w.lists[c.excludedPatterns]? := by
  unfold ExcludedPatterns
  rw [hc]
  rfl

lemma addExcluded_spec {w : World} {cid : Nat} {c : Config} {l0 : List String}
    (hc : getConfig w cid = some c) (hl0 : w.lists[c.excludedPatterns]? = some l0)
    (g : String) :
    AddExcludedPattern w cid g
      = { w with lists := w.lists.set c.excludedPatterns (l0 ++ [g]) } := by
  unfold getConfig at hc
  simp only [AddExcludedPattern, hc, hl0]

/-- In a world made of `cfgs` plus one appended config `ch` sharing the
exclusion-list address of the config at `i`, a pattern appended through
either of the two is observable through the other. -/
lemma shared_list_both_ways (cfgs : List Config) (ls : List (List String)) (ch : Config)
    {i : Nat} {c : Config} (hi : cfgs[i]? = some c)
    (hsame : ch.excludedPatterns = c.excludedPatterns)
    {l0 : List String} (hl0 : ls[c.excludedPatterns]? = some l0) (g : String) :
    (∃ l, ExcludedPatterns
        (AddExcludedPattern { configs := cfgs ++ [ch], lists := ls } cfgs.length g) i
        = some l ∧ g ∈ l) ∧
    (∃ l, ExcludedPatterns
        (AddExcludedPattern { configs := cfgs ++ [ch], lists := ls } i g) cfgs.length
        = some l ∧ g ∈ l) := by
  have hilt : i < cfgs.length := lt_of_getElem?_some hi
  have hlid : c.excludedPatterns < ls.length := lt_of_getElem?_some hl0
  have hl0ch : ls[ch.excludedPatterns]? = some l0 := by rw [hsame]; exact hl0
  constructor
  · rw [addExcluded_spec (getConfig_append_last cfgs ls ch) hl0ch g]
    rw [excludedPatterns_spec (getConfig_append_lt cfgs _ ch hilt |>.trans hi)]
    refine ⟨l0 ++ [g], ?_, by simp⟩
    show (ls.set ch.excludedPatterns (l0 ++ [g]))[c.excludedPatterns]? = _
    rw [hsame]
    exact List.getElem?_set_eq_of_lt _ hlid
  · rw [addExcluded_spec (getConfig_append_lt cfgs ls ch hilt |>.trans hi) hl0 g]
    rw [excludedPatterns_spec (getConfig_append_last cfgs _ ch)]
    refine ⟨l0 ++ [g], ?_, by simp⟩
    show (ls.set c.excludedPatterns (l0 ++ [g]))[ch.excludedPatterns]? = _
    rw [hsame]
    exact List.getElem?_set_eq_of_lt _ hlid

end tsconfig

open tsconfig

/-- C3: the query `IgnoresDependency` returns true exactly when the trimmed name is
a member of the receiver's own ignore set or of the ignore set of some
node on its parent chain (walking `parent` toward the root, true on the
first match, false at the root with no match). -/
theorem ignoresDependencyWalkCharacterization (w : World) (cid : Nat) (d : String)
    (hpd : parentsDecreasing w = true) :
    IgnoresDependency w cid d = true ↔
      ∃ a, AncOrSelf w cid a ∧ goTrim d ∈ localIgnores w a :=
  ignores_iff (pd_of_dec hpd) cid d

theorem ignoresDependencyWalkCharacterization_witness :
    parentsDecreasing exampleIgnoreWorld = true ∧
    (IgnoresDependency exampleIgnoreWorld 2 "left-pad" = true ↔
      ∃ a, AncOrSelf exampleIgnoreWorld 2 a ∧
        goTrim "left-pad" ∈ localIgnores exampleIgnoreWorld a) :=
  ⟨by decide, ignoresDependencyWalkCharacterization exampleIgnoreWorld 2 "left-pad" (by decide)⟩

/-- C2: a dependency present in an ancestor's (or the node's own) ignore
set is reported ignored at the node; adding further local ignore entries
at the node cannot make it un-ignored; and a proper descendant's own
additions never change what an ancestor reports. -/
theorem ignorePropagationMonotoneOneDirectional (w : World) (A B : Nat) (x d y : String)
    (hpd : parentsDecreasing w = true) (hanc : AncOrSelf w B A)
    (hB : B < w.configs.length) :
    (goTrim x ∈ localIgnores w A →
      IgnoresDependency w B x = true ∧
      IgnoresDependency (AddIgnoreDependency w B d) B x = true) ∧
    (A ≠ B →
      IgnoresDependency (AddIgnoreDependency w B d) A y = IgnoresDependency w A y) := by
  have hpdP := pd_of_dec hpd
  constructor
  · intro hmem
    refine ⟨(ignores_iff hpdP B x).mpr ⟨A, hanc, hmem⟩, ?_⟩
    refine (ignores_iff (pd_AddIgnore hpdP B d) B x).mpr
      ⟨A, anc_congr (fun i => getParent_AddIgnore w B d i) hanc,
        localIgnores_AddIgnore_mono hmem⟩
  · intro hne
    have hAB : A < B := Nat.lt_of_le_of_ne (anc_le hpdP hanc) hne
    refine ignores_frame hpdP (pd_AddIgnore hpdP B d) ?_ hAB y
    intro i hi
    obtain ⟨c, hc⟩ : ∃ c, w.configs[B]? = some c :=
      ⟨_, (List.getElem?_eq_some_getElem_iff _ _ hB).mpr trivial⟩
    simp only [AddIgnoreDependency, hc]
    exact List.getElem?_set_ne (Nat.ne_of_lt hi).symm

theorem ignorePropagationMonotoneOneDirectional_witness :
    parentsDecreasing exampleIgnoreWorld = true ∧
    ((goTrim "left-pad" ∈ localIgnores exampleIgnoreWorld 1 →
        IgnoresDependency exampleIgnoreWorld 2 "left-pad" = true ∧
        IgnoresDependency (AddIgnoreDependency exampleIgnoreWorld 2 "other") 2 "left-pad"
          = true) ∧
     ((1 : Nat) ≠ 2 →
        IgnoresDependency (AddIgnoreDependency exampleIgnoreWorld 2 "other") 1 "y"
          = IgnoresDependency exampleIgnoreWorld 1 "y")) :=
  ⟨by decide,
    ignorePropagationMonotoneOneDirectional exampleIgnoreWorld 1 2 "left-pad" "other" "y"
      (by decide) (AncOrSelf.step (AncOrSelf.refl 2) (by decide)) (by decide)⟩

/-- C8: the operations `AddIgnoreDependency` and `IgnoresDependency` behave as if called
with the whitespace-trimmed argument; adding `"  x  "` makes both `"x"`
and `" x "` report ignored; and adding the same name twice leaves the
state exactly as adding it once. -/
theorem addIgnoreTrimsAndIsIdempotent (w : World) (cid : Nat) (s : String)
    (hcid : cid < w.configs.length) :
    AddIgnoreDependency w cid s = AddIgnoreDependency w cid (goTrim s) ∧
    IgnoresDependency w cid s = IgnoresDependency w cid (goTrim s) ∧
    IgnoresDependency (AddIgnoreDependency w cid "  x  ") cid "x" = true ∧
    IgnoresDependency (AddIgnoreDependency w cid "  x  ") cid " x " = true ∧
    AddIgnoreDependency (AddIgnoreDependency w cid s) cid s = AddIgnoreDependency w cid s := by
  obtain ⟨c, hc⟩ : ∃ c, w.configs[cid]? = some c :=
    ⟨_, (List.getElem?_eq_some_getElem_iff _ _ hcid).mpr trivial⟩
  refine ⟨?_, ?_, ?_, ?_, ?_⟩
  · simp only [AddIgnoreDependency, goTrim_idem]
  · unfold IgnoresDependency
    rw [goTrim_idem]
  · exact ignores_after_add_same_trim hc hcid "  x  " "x" (by decide)
  · exact ignores_after_add_same_trim hc hcid "  x  " " x " (by decide)
  · simp only [AddIgnoreDependency, hc]
    exact addIgnore_set_mem hcid s mem_insertIgnore

theorem addIgnoreTrimsAndIsIdempotent_witness :
    (1 : Nat) < exampleWorldAB.configs.length ∧
    (AddIgnoreDependency exampleWorldAB 1 " a b "
        = AddIgnoreDependency exampleWorldAB 1 (goTrim " a b ") ∧
     IgnoresDependency exampleWorldAB 1 " a b "
        = IgnoresDependency exampleWorldAB 1 (goTrim " a b ") ∧
     IgnoresDependency (AddIgnoreDependency exampleWorldAB 1 "  x  ") 1 "x" = true ∧
     IgnoresDependency (AddIgnoreDependency exampleWorldAB 1 "  x  ") 1 " x " = true ∧
     AddIgnoreDependency (AddIgnoreDependency exampleWorldAB 1 " a b ") 1 " a b "
        = AddIgnoreDependency exampleWorldAB 1 " a b ") :=
  ⟨by decide, addIgnoreTrimsAndIsIdempotent exampleWorldAB 1 " a b " (by decide)⟩

/-- C10: deriving a child changes no existing config record and no
exclusion list, so every query on the parent returns the same result
before and after `NewChild`. -/
theorem newChildLeavesParentUnchanged (w : World) (cid : Nat)
    (hpd : parentsDecreasing w = true) :
    (∀ i, i < w.configs.length → getConfig (NewChild w cid).1 i = getConfig w i) ∧
    (NewChild w cid).1.lists = w.lists ∧
    ExcludedPatterns (NewChild w cid).1 cid = ExcludedPatterns w cid ∧
    (∀ d, IgnoresDependency (NewChild w cid).1 cid d = IgnoresDependency w cid d) := by
  cases hc : w.configs[cid]? with
  | none =>
    have hw : (NewChild w cid).1 = w := by simp only [NewChild, hc]
    rw [hw]
    exact ⟨fun i _ => rfl, rfl, rfl, fun d => rfl⟩
  | some c =>
    have hcl : cid < w.configs.length := lt_of_getElem?_some hc
    have hsame : ∀ i, i < w.configs.length →
        (NewChild w cid).1.configs[i]? = w.configs[i]? := by
      intro i hi
      simp only [NewChild, hc]
      exact List.getElem?_append_left hi
    have hlists : (NewChild w cid).1.lists = w.lists := by
      simp only [NewChild, hc]
    refine ⟨fun i hi => hsame i hi, hlists, ?_, ?_⟩
    · unfold ExcludedPatterns getConfig
      rw [hsame cid hcl, hlists]
    · intro d
      exact ignores_frame (pd_of_dec hpd) (pd_NewChild (pd_of_dec hpd) cid) hsame hcl d

theorem newChildLeavesParentUnchanged_witness :
    parentsDecreasing exampleWorldA = true ∧
    getConfig (NewChild exampleWorldA 1).1 1 = getConfig exampleWorldA 1 ∧
    (NewChild exampleWorldA 1).1.lists = exampleWorldA.lists ∧
    ExcludedPatterns (NewChild exampleWorldA 1).1 1 = ExcludedPatterns exampleWorldA 1 ∧
    IgnoresDependency (NewChild exampleWorldA 1).1 1 "x"
      = IgnoresDependency exampleWorldA 1 "x" := by
  have h := newChildLeavesParentUnchanged exampleWorldA 1 (by decide)
  exact ⟨by decide, h.1 1 (by decide), h.2.1, h.2.2.1, h.2.2.2 "x"⟩


/-- C9: the method `FindThirdPartyDependency` is a stub: for every node and module
name it returns the empty resolved path and `false` (not found), a normal
result; it does not touch or even read the world. -/
theorem findThirdPartyDependencyStub (w : World) (cid : Nat) (modName : String) :
    FindThirdPartyDependency w cid modName = ("", false) := rfl

/-- C7: calling `New` returns a root config with generation enabled, environment
`"other"`, an empty exclusion list, an empty ignore set, import-statement
validation enabled, library template `"$package_name$"`, test template
`"$package_name$_test"`, and no parent. -/
theorem rootConfigDefaults (w : World) (r : String) :
    Parent (New w r).1 (New w r).2 = some none ∧
    GenerationEnabled (New w r).1 (New w r).2 = some true ∧
    (getConfig (New w r).1 (New w r).2).map (fun c => c.environmentType) = some "other" ∧
    (getConfig (New w r).1 (New w r).2).map (fun c => c.repoRoot) = some r ∧
    ExcludedPatterns (New w r).1 (New w r).2 = some [] ∧
    (getConfig (New w r).1 (New w r).2).map (fun c => c.ignoreDependencies) = some [] ∧
    ValidateImportStatements (New w r).1 (New w r).2 = some true ∧
    (getConfig (New w r).1 (New w r).2).map (fun c => c.libraryNamingConvention)
      = some "$package_name$" ∧
    (getConfig (New w r).1 (New w r).2).map (fun c => c.testNamingConvention)
      = some "$package_name$_test" := by
  have hcfg : getConfig (New w r).1 (New w r).2 = some
      ⟨none, true, r, EnvironmentOther, w.lists.length, [], true,
        packageNameNamingConventionSubstitution,
        packageNameNamingConventionSubstitution ++ "_test"⟩ :=
    getConfig_append_last w.configs (w.lists ++ [[]]) _
  refine ⟨?_, ?_, ?_, ?_, ?_, ?_, ?_, ?_, ?_⟩
  · unfold Parent
    rw [hcfg]
    rfl
  · unfold GenerationEnabled
    rw [hcfg]
    rfl
  · rw [hcfg]
    rfl
  · rw [hcfg]
    rfl
  · rw [excludedPatterns_spec hcfg]
    exact List.getElem?_concat_length w.lists []
  · rw [hcfg]
    rfl
  · unfold ValidateImportStatements
    rw [hcfg]
    rfl
  · rw [hcfg]
    rfl
  · rw [hcfg]
    rfl

/-- C1: the child returned by `NewChild` holds the same exclusion-list
address as its parent (the same underlying list object), so a pattern
appended through the child is observable via `ExcludedPatterns` on the
parent, and a pattern appended through the parent is observable via
`ExcludedPatterns` on the child. -/
theorem excludedPatternsSharedBetweenParentAndChild (w : World) (cid : Nat) (g : String)
    (hcid : cid < w.configs.length) (hl : listsValid w = true) :
    ((getConfig (NewChild w cid).1 (NewChild w cid).2).map (fun cc => cc.excludedPatterns)
      = (getConfig (NewChild w cid).1 cid).map (fun cc => cc.excludedPatterns)) ∧
    (∃ l, ExcludedPatterns (AddExcludedPattern (NewChild w cid).1 (NewChild w cid).2 g) cid
        = some l ∧ g ∈ l) ∧
    (∃ l, ExcludedPatterns (AddExcludedPattern (NewChild w cid).1 cid g) (NewChild w cid).2
        = some l ∧ g ∈ l) := by
  obtain ⟨c, hc⟩ : ∃ c, w.configs[cid]? = some c :=
    ⟨_, (List.getElem?_eq_some_getElem_iff _ _ hcid).mpr trivial⟩
  have hlid : c.excludedPatterns < w.lists.length :=
    of_decide_eq_true (List.all_eq_true.mp hl c (List.getElem?_mem hc))
  obtain ⟨l0, hl0⟩ : ∃ l0, w.lists[c.excludedPatterns]? = some l0 :=
    ⟨_, (List.getElem?_eq_some_getElem_iff _ _ hlid).mpr trivial⟩
  simp only [newChild_eq hc]
  refine ⟨?_, shared_list_both_ways w.configs w.lists (childOf cid c) hc rfl hl0 g⟩
  rw [getConfig_append_last, getConfig_append_lt _ _ _ hcid, hc]
  rfl

theorem excludedPatternsSharedBetweenParentAndChild_witness :
    ((1 : Nat) < exampleWorldA.configs.length ∧ listsValid exampleWorldA = true) ∧
    (((getConfig (NewChild exampleWorldA 1).1 (NewChild exampleWorldA 1).2).map
        (fun cc => cc.excludedPatterns)
      = (getConfig (NewChild exampleWorldA 1).1 1).map (fun cc => cc.excludedPatterns)) ∧
    (∃ l, ExcludedPatterns
        (AddExcludedPattern (NewChild exampleWorldA 1).1 (NewChild exampleWorldA 1).2 "g") 1
        = some l ∧ "g" ∈ l) ∧
    (∃ l, ExcludedPatterns
        (AddExcludedPattern (NewChild exampleWorldA 1).1 1 "g") (NewChild exampleWorldA 1).2
        = some l ∧ "g" ∈ l)) :=
  ⟨⟨by decide, by decide⟩,
    excludedPatternsSharedBetweenParentAndChild exampleWorldA 1 "g" (by decide) (by decide)⟩


/-- C4: the call `NewChild` returns a child whose `Parent` is the receiver, whose
ignore set starts empty, and whose scalar settings (generation flag, repo
root, environment, import validation, naming templates) equal the
parent's at derivation time as independent copies: running any scalar
setter on the parent afterwards leaves the child's value unchanged, and
vice versa. -/
theorem newChildPostcondition (w : World) (cid : Nat)
    (hcid : cid < w.configs.length) (b b' : Bool) (e lstr tstr : String) :
    Parent (NewChild w cid).1 (NewChild w cid).2 = some (some cid) ∧
    (getConfig (NewChild w cid).1 (NewChild w cid).2).map (fun cc => cc.ignoreDependencies)
      = some [] ∧
    GenerationEnabled (NewChild w cid).1 (NewChild w cid).2
      = GenerationEnabled w cid ∧
    (getConfig (NewChild w cid).1 (NewChild w cid).2).map (fun cc => cc.repoRoot)
      = (getConfig w cid).map (fun cc => cc.repoRoot) ∧
    (getConfig (NewChild w cid).1 (NewChild w cid).2).map (fun cc => cc.environmentType)
      = (getConfig w cid).map (fun cc => cc.environmentType) ∧
    ValidateImportStatements (NewChild w cid).1 (NewChild w cid).2
      = ValidateImportStatements w cid ∧
    (getConfig (NewChild w cid).1 (NewChild w cid).2).map (fun cc => cc.libraryNamingConvention)
      = (getConfig w cid).map (fun cc => cc.libraryNamingConvention) ∧
    (getConfig (NewChild w cid).1 (NewChild w cid).2).map (fun cc => cc.testNamingConvention)
      = (getConfig w cid).map (fun cc => cc.testNamingConvention) ∧
    GenerationEnabled (SetGenerationEnabled (NewChild w cid).1 cid b) (NewChild w cid).2
      = GenerationEnabled (NewChild w cid).1 (NewChild w cid).2 ∧
    GenerationEnabled (SetGenerationEnabled (NewChild w cid).1 (NewChild w cid).2 b) cid
      = GenerationEnabled (NewChild w cid).1 cid ∧
    (getConfig (SetEnvironmentType (NewChild w cid).1 cid e) (NewChild w cid).2).map
        (fun cc => cc.environmentType)
      = (getConfig (NewChild w cid).1 (NewChild w cid).2).map (fun cc => cc.environmentType) ∧
    (getConfig (SetEnvironmentType (NewChild w cid).1 (NewChild w cid).2 e) cid).map
        (fun cc => cc.environmentType)
      = (getConfig (NewChild w cid).1 cid).map (fun cc => cc.environmentType) ∧
    ValidateImportStatements (SetValidateImportStatements (NewChild w cid).1 cid b')
        (NewChild w cid).2
      = ValidateImportStatements (NewChild w cid).1 (NewChild w cid).2 ∧
    ValidateImportStatements (SetValidateImportStatements (NewChild w cid).1
        (NewChild w cid).2 b') cid
      = ValidateImportStatements (NewChild w cid).1 cid ∧
    (getConfig (SetLibraryNamingConvention (NewChild w cid).1 cid lstr)
        (NewChild w cid).2).map (fun cc => cc.libraryNamingConvention)
      = (getConfig (NewChild w cid).1 (NewChild w cid).2).map
          (fun cc => cc.libraryNamingConvention) ∧
    (getConfig (SetLibraryNamingConvention (NewChild w cid).1 (NewChild w cid).2 lstr)
        cid).map (fun cc => cc.libraryNamingConvention)
      = (getConfig (NewChild w cid).1 cid).map (fun cc => cc.libraryNamingConvention) ∧
    (getConfig (SetTestNamingConvention (NewChild w cid).1 cid tstr)
        (NewChild w cid).2).map (fun cc => cc.testNamingConvention)
      = (getConfig (NewChild w cid).1 (NewChild w cid).2).map
          (fun cc => cc.testNamingConvention) ∧
    (getConfig (SetTestNamingConvention (NewChild w cid).1 (NewChild w cid).2 tstr)
        cid).map (fun cc => cc.testNamingConvention)
      = (getConfig (NewChild w cid).1 cid).map (fun cc => cc.testNamingConvention) := by
  obtain ⟨c, hc⟩ : ∃ c, w.configs[cid]? = some c :=
    ⟨_, (List.getElem?_eq_some_getElem_iff _ _ hcid).mpr trivial⟩
  have hne : cid ≠ w.configs.length := Nat.ne_of_lt hcid
  have hne' : w.configs.length ≠ cid := Nat.ne_of_gt hcid
  simp only [newChild_eq hc]
  have hWcid : (w.configs ++ [childOf cid c])[cid]? = some c := by
    rw [List.getElem?_append_left hcid]
    exact hc
  have hWlast : (w.configs ++ [childOf cid c])[w.configs.length]? = some (childOf cid c) :=
    List.getElem?_concat_length _ _
  have hglast := getConfig_append_last w.configs w.lists (childOf cid c)
  have hglt : getConfig { configs := w.configs ++ [childOf cid c], lists := w.lists } cid
      = some c := (getConfig_append_lt w.configs w.lists (childOf cid c) hcid).trans hc
  refine ⟨?_, ?_, ?_, ?_, ?_, ?_, ?_, ?_, ?_, ?_, ?_, ?_, ?_, ?_, ?_, ?_, ?_, ?_⟩
  · unfold Parent
    rw [hglast]
    rfl
  · rw [hglast]
    rfl
  · unfold GenerationEnabled getConfig
    rw [hWlast, hc]
    rfl
  · unfold getConfig
    rw [hWlast, hc]
    rfl
  · unfold getConfig
    rw [hWlast, hc]
    rfl
  · unfold ValidateImportStatements getConfig
    rw [hWlast, hc]
    rfl
  · unfold getConfig
    rw [hWlast, hc]
    rfl
  · unfold getConfig
    rw [hWlast, hc]
    rfl
  · simp only [SetGenerationEnabled, hWcid]
    unfold GenerationEnabled
    rw [getConfig_world_set_ne hne, hglast, hWlast]
  · simp only [SetGenerationEnabled, hWlast]
    unfold GenerationEnabled
    rw [getConfig_world_set_ne hne', hglt, hWcid]
  · simp only [SetEnvironmentType, hWcid]
    rw [getConfig_world_set_ne hne, hglast, hWlast]
  · simp only [SetEnvironmentType, hWlast]
    rw [getConfig_world_set_ne hne', hglt, hWcid]
  · simp only [SetValidateImportStatements, hWcid]
    unfold ValidateImportStatements
    rw [getConfig_world_set_ne hne, hglast, hWlast]
  · simp only [SetValidateImportStatements, hWlast]
    unfold ValidateImportStatements
    rw [getConfig_world_set_ne hne', hglt, hWcid]
  · simp only [SetLibraryNamingConvention, hWcid]
    rw [getConfig_world_set_ne hne, hglast, hWlast]
  · simp only [SetLibraryNamingConvention, hWlast]
    rw [getConfig_world_set_ne hne', hglt, hWcid]
  · simp only [SetTestNamingConvention, hWcid]
    rw [getConfig_world_set_ne hne, hglast, hWlast]
  · simp only [SetTestNamingConvention, hWlast]
    rw [getConfig_world_set_ne hne', hglt, hWcid]


theorem newChildPostcondition_witness :
    (1 : Nat) < exampleWorldA.configs.length ∧
    Parent (NewChild exampleWorldA 1).1 (NewChild exampleWorldA 1).2 = some (some 1) ∧
    GenerationEnabled (SetGenerationEnabled (NewChild exampleWorldA 1).1 1 true)
        (NewChild exampleWorldA 1).2
      = GenerationEnabled (NewChild exampleWorldA 1).1 (NewChild exampleWorldA 1).2 := by
  have h := newChildPostcondition exampleWorldA 1 (by decide) true false "node" "L" "T"
  exact ⟨by decide, h.1, h.2.2.2.2.2.2.2.2.1⟩

lemma raGo_skip (pat rep : List Char) :
    ∀ (s : List Char) (k : Nat), raGo pat rep k s = raGo pat rep 0 (s.drop k) := by
  intro s
  induction s with
  | nil => intro k; cases k <;> rfl
  | cons c rest ih =>
    intro k
    cases k with
    | zero => rfl
    | succ k' =>
      show raGo pat rep k' rest = _
      rw [ih k']
      rfl

lemma replaceAll_nil (pat rep : List Char) (h : pat ≠ []) : replaceAll [] pat rep = [] := by
  unfold replaceAll
  rw [if_neg h]
  rfl

lemma replaceAll_cons_not (pat rep : List Char) (c : Char) (rest : List Char) (h : pat ≠ [])
    (hnp : pat.isPrefixOf (c :: rest) = false) :
    replaceAll (c :: rest) pat rep = c :: replaceAll rest pat rep := by
  unfold replaceAll
  rw [if_neg h, if_neg h]
  show raGo pat rep 0 (c :: rest) = c :: raGo pat rep 0 rest
  simp only [raGo, hnp]
  rfl

lemma replaceAll_head_match (pat rep b : List Char) (h : pat ≠ []) :
    replaceAll (pat ++ b) pat rep = rep ++ replaceAll b pat rep := by
  unfold replaceAll
  rw [if_neg h]
  have hpre : pat.isPrefixOf (pat ++ b) = true := by
    rw [ List.isPrefixOf_iff_prefix]
    exact List.prefix_append pat b
  cases hp : pat with
  | nil => exact absurd hp h
  | cons p0 pr =>
    subst hp
    show raGo (p0 :: pr) rep 0 (p0 :: (pr ++ b)) = rep ++ raGo (p0 :: pr) rep 0 b
    simp only [raGo, show (p0 :: pr).isPrefixOf (p0 :: (pr ++ b)) = true from hpre]
    rw [raGo_skip]
    simp only [List.length_cons, Nat.add_sub_cancel]
    rw [List.drop_left pr b]
    simp only [if_true]

lemma replaceAll_no_occur (pat rep : List Char) (h : pat ≠ []) :
    ∀ s, ¬ Occurs pat s → replaceAll s pat rep = s := by
  intro s
  induction s with
  | nil => intro _; exact replaceAll_nil pat rep h
  | cons c rest ih =>
    intro hno
    have hnp : pat.isPrefixOf (c :: rest) = false := by
      cases hx : pat.isPrefixOf (c :: rest) with
      | false => rfl
      | true =>
        rw [ List.isPrefixOf_iff_prefix] at hx
        obtain ⟨t, ht⟩ := hx
        exact absurd ⟨[], t, by simp [← ht]⟩ hno
    rw [replaceAll_cons_not pat rep c rest h hnp]
    rw [ih (fun hocc => by
      obtain ⟨a, b, hab⟩ := hocc
      exact hno ⟨c :: a, b, by simp [hab]⟩)]

lemma setLibrary_getConfig {w : World} {cid : Nat} {c : Config}
    (hc : w.configs[cid]? = some c) (tmpl : String) :
    getConfig (SetLibraryNamingConvention w cid tmpl) cid
      = some { c with libraryNamingConvention := tmpl } := by
  simp only [SetLibraryNamingConvention, hc]
  unfold getConfig
  show (w.configs.set cid _)[cid]? = _
  exact List.getElem?_set_eq_of_lt _ (lt_of_getElem?_some hc)

/-- C6: rendering substitutes the placeholder token literally: a template
with no occurrence of `$package_name$` is returned unchanged; a leading
occurrence is replaced (and scanning continues behind it, so every
occurrence is replaced); `"$package_name$_lib"` renders `"foo"` as
`"foo_lib"`; the default test template renders `"bar"` as `"bar_test"`;
and a template with two occurrences substitutes both. -/
theorem renderNamingTemplates (w : World) (cid : Nat) (tmpl p repo : String)
    (hcid : cid < w.configs.length) :
    (¬ Occurs packageNameNamingConventionSubstitution.data tmpl.data →
      RenderLibraryName (SetLibraryNamingConvention w cid tmpl) cid p = some tmpl) ∧
    (∀ b : List Char,
      replaceAll (packageNameNamingConventionSubstitution.data ++ b)
          packageNameNamingConventionSubstitution.data p.data
        = p.data ++ replaceAll b packageNameNamingConventionSubstitution.data p.data) ∧
    RenderLibraryName (SetLibraryNamingConvention w cid "$package_name$_lib") cid "foo"
      = some "foo_lib" ∧
    RenderTestName (New w repo).1 (New w repo).2 "bar" = some "bar_test" ∧
    RenderLibraryName (SetLibraryNamingConvention w cid "$package_name$/$package_name$")
        cid "foo" = some "foo/foo" := by
  obtain ⟨c, hc⟩ : ∃ c, w.configs[cid]? = some c :=
    ⟨_, (List.getElem?_eq_some_getElem_iff _ _ hcid).mpr trivial⟩
  have hpat : packageNameNamingConventionSubstitution.data ≠ [] := by decide
  refine ⟨?_, ?_, ?_, ?_, ?_⟩
  · intro hno
    unfold RenderLibraryName
    rw [setLibrary_getConfig hc tmpl]
    show some (String.mk (replaceAll tmpl.data packageNameNamingConventionSubstitution.data
        p.data)) = some tmpl
    rw [replaceAll_no_occur _ _ hpat tmpl.data hno]
  · intro b
    exact replaceAll_head_match _ _ b hpat
  · unfold RenderLibraryName
    rw [setLibrary_getConfig hc _]
    show some (String.mk (replaceAll ("$package_name$_lib" : String).data
        packageNameNamingConventionSubstitution.data ("foo" : String).data)) = some "foo_lib"
    decide
  · have hcfg : getConfig (New w repo).1 (New w repo).2 = some
        ⟨none, true, repo, EnvironmentOther, w.lists.length, [], true,
          packageNameNamingConventionSubstitution,
          packageNameNamingConventionSubstitution ++ "_test"⟩ :=
      getConfig_append_last w.configs (w.lists ++ [[]]) _
    unfold RenderTestName
    rw [hcfg]
    show some (String.mk (replaceAll (packageNameNamingConventionSubstitution ++ "_test").data
        packageNameNamingConventionSubstitution.data ("bar" : String).data)) = some "bar_test"
    decide
  · unfold RenderLibraryName
    rw [setLibrary_getConfig hc _]
    show some (String.mk (replaceAll ("$package_name$/$package_name$" : String).data
        packageNameNamingConventionSubstitution.data ("foo" : String).data)) = some "foo/foo"
    decide

theorem renderNamingTemplates_witness :
    (1 : Nat) < exampleWorldA.configs.length ∧
    ((¬ Occurs packageNameNamingConventionSubstitution.data ("plain_lib" : String).data →
        RenderLibraryName (SetLibraryNamingConvention exampleWorldA 1 "plain_lib") 1 "foo"
          = some "plain_lib") ∧
     (∀ b : List Char,
        replaceAll (packageNameNamingConventionSubstitution.data ++ b)
            packageNameNamingConventionSubstitution.data ("foo" : String).data
          = ("foo" : String).data
            ++ replaceAll b packageNameNamingConventionSubstitution.data
                ("foo" : String).data) ∧
     RenderLibraryName (SetLibraryNamingConvention exampleWorldA 1 "$package_name$_lib") 1
        "foo" = some "foo_lib" ∧
     RenderTestName (New exampleWorldA "repo").1 (New exampleWorldA "repo").2 "bar"
        = some "bar_test" ∧
     RenderLibraryName
        (SetLibraryNamingConvention exampleWorldA 1 "$package_name$/$package_name$") 1 "foo"
        = some "foo/foo") :=
  ⟨by decide, renderNamingTemplates exampleWorldA 1 "plain_lib" "foo" "repo" (by decide)⟩


/-- C5 counterexample: the claim "for the root package path (the empty
string) `ParentForPackage` returns absent" is false: `Dir "" = "."`,
which normalizes to the empty string, so with a config registered under
the empty-string key (as the walker does for the repository root) the
lookup returns that config, not absent. -/
theorem parentForPackageRootCounterexample :
    ParentForPackage [("", 0)] "" = some 0 ∧ ParentForPackage [("", 0)] "" ≠ none := by
  decide

/-- C5 (amended): the lookup `ParentForPackage` computes `Dir pkg`, normalizes `"."`
to the empty string, and returns the config registered under that key
(absent exactly when no config is registered under it, with no error
signal); in particular for the root package path (the empty string) the
computed key is the empty string itself, so the result is the config
registered under the empty string when present and absent otherwise. -/
theorem parentForPackageLookup (cs : Configs) (pkg : String) (v : Nat) (rest : Configs) :
    Dir "" = "." ∧
    (cs.find? (fun e => e.1 == (if Dir pkg = "." then "" else Dir pkg)) = none →
      ParentForPackage cs pkg = none) ∧
    (∀ e, cs.find? (fun e2 => e2.1 == (if Dir pkg = "." then "" else Dir pkg)) = some e →
      ParentForPackage cs pkg = some e.2) ∧
    ParentForPackage (("", v) :: rest) "" = some v ∧
    (cs.find? (fun e => e.1 == "") = none → ParentForPackage cs "" = none) := by
  have hdir : (if Dir "" = "." then "" else Dir "") = "" := by decide
  refine ⟨by decide, ?_, ?_, ?_, ?_⟩
  · intro h
    simp only [ParentForPackage]
    rw [h]
    rfl
  · intro e he
    simp only [ParentForPackage]
    rw [he]
    rfl
  · simp only [ParentForPackage, hdir]
    rw [List.find?_cons_of_pos rest rfl]
    rfl
  · intro h
    simp only [ParentForPackage, hdir]
    rw [h]
    rfl

theorem parentForPackageLookup_witness :
    Dir "" = "." ∧
    ParentForPackage [("a", 3)] "a/b" = some 3 ∧
    ParentForPackage (("", 7) :: []) "" = some 7 := by
  have h := parentForPackageLookup [("a", 3)] "a/b" 7 []
  exact ⟨h.1, h.2.2.1 ("a", 3) (by decide), h.2.2.2.1⟩
